import Mathlib

/-!
Verification development for the `fxdownload` tool (`src/index.js`, which holds
two revisions of the listing-based downloader, and `src/fetch.js`, the
redirect-based downloader).

The embedding is shallow:
* an HTML directory-listing body is represented by the list of `href` values
  of its `td a[href]` anchors, in document order (HTML parsing is an external
  capability of the `cheerio` library, outside the core being verified);
* JavaScript `String.prototype.match(pat)` with a metacharacter-free pattern
  is unanchored substring containment, modelled by `containsStr`;
* the anchored extension regexes of the first revision (`/\.tar\.bz2$/`, ...)
  are suffix matches, modelled by `endsWithStr`;
* `Array.prototype.sort()` (lexicographic, by code units — all the strings
  involved are ASCII, so code-unit order and code-point order coincide) is
  modelled by insertion sort `sortStr` over the code-point order `strLe`;
* `Array.prototype.pop()` is `List.getLast?`, with `none` standing for the
  JavaScript `undefined` produced by popping an empty array;
* a thrown `Error` is `Except.error`;
* filesystem calls (`rimraf.sync`, `mkdirp.sync`, `fs.renameSync`,
  `fs.chmodSync`, `fs.unlinkSync`, `decompress`) are recorded as an effect
  trace, a `List FsEffect`, in the order the code issues them.
-/

namespace Fxdownload

/-! ### String primitives -/

/-- `startsWith s pat`: the character list `pat` occurs at the head of `s`. -/
def startsWith : List Char → List Char → Bool
  | _, [] => true
  | [], _ :: _ => false
  | c :: s, d :: pat => c == d && startsWith s pat

/-- `containsSeq s pat`: the character list `pat` occurs contiguously anywhere
inside `s`.  This is JavaScript `s.indexOf(pat) !== -1`, and also
`s.match(pat)` when `pat` has no regex metacharacters. -/
def containsSeq : List Char → List Char → Bool
  | [], pat => startsWith [] pat
  | c :: rest, pat => startsWith (c :: rest) pat || containsSeq rest pat

/-- Substring containment on `String`. -/
def containsStr (s pat : String) : Bool := containsSeq s.data pat.data

/-- `endsWithStr s pat`: `pat` is a suffix of `s`.  This is what an anchored
regex such as `/\.tar\.bz2$/` tests. -/
def endsWithStr (s pat : String) : Bool := startsWith s.data.reverse pat.data.reverse

/-! ### The code-unit order used by `Array.prototype.sort()` -/

/-- Strict lexicographic order on character lists, by code point. -/
def listLt : List Char → List Char → Bool
  | [], [] => false
  | [], _ :: _ => true
  | _ :: _, [] => false
  | a :: as, b :: bs => decide (a < b) || (a == b && listLt as bs)

/-- The (total, reflexive) order `a ≤ b` used to model the default sort. -/
def strLe (a b : String) : Bool := !(listLt b.data a.data)

/-- Insert a string into a `strLe`-sorted list. -/
def insertStr (a : String) : List String → List String
  | [] => [a]
  | b :: bs => if strLe a b then a :: b :: bs else b :: insertStr a bs

/-- The default JavaScript sort: ascending lexicographic order. -/
def sortStr : List String → List String
  | [] => []
  | a :: as => insertStr a (sortStr as)

/-! ### Channel / platform catalog (src/index.js) -/

/-- The channel enumeration accepted by the `--channel` option of the first
revision of `index.js` (the second revision accepts only the first three). -/
inductive Channel
  | release
  | beta
  | esr
  | aurora
  | nightly
deriving DecidableEq

def channelName : Channel → String
  | .release => "release"
  | .beta => "beta"
  | .esr => "esr"
  | .aurora => "aurora"
  | .nightly => "nightly"

/-- `channelMap` of the first revision of `index.js` (lines 18-24). -/
def channelMap : Channel → String
  | .esr => "latest-esr"
  | .release => "latest"
  | .beta => "latest-beta"
  | .aurora => "latest-mozilla-aurora"
  | .nightly => "latest-trunk"

/-- `channelMap` of the second revision of `index.js` (lines 188-192): a plain
object lookup, `undefined` (here `none`) for a key that is not present. -/
def channelMap2 : Channel → Option String
  | .release => some "latest"
  | .beta => some "latest-beta"
  | .esr => some "latest-esr"
  | _ => none

/-- The platform enumeration accepted by the `--platform` option. -/
inductive Platform
  | linux_x86_64
  | linux_i686
  | mac
  | win32
  | win64
deriving DecidableEq

def platformName : Platform → String
  | .linux_x86_64 => "linux-x86_64"
  | .linux_i686 => "linux-i686"
  | .mac => "mac"
  | .win32 => "win32"
  | .win64 => "win64"

/-- `program.platform.match(/^linux/i)`: the platform names are lower-case, so
the case-insensitive anchored regex is a plain prefix test. -/
def isLinuxName (p : Platform) : Bool := startsWith (platformName p).data "linux".data

/-- `extensionMap` of the first revision of `index.js` (lines 26-32): the
regexes are `$`-anchored, so each value is the required filename suffix. -/
def extensionMap : Platform → String
  | .linux_x86_64 => ".tar.bz2"
  | .linux_i686 => ".tar.bz2"
  | .mac => ".dmg"
  | .win32 => ".exe"
  | .win64 => ".exe"

/-- First revision: `fileExtension.test(href)` with the anchored regex, i.e. a
suffix match. -/
def extMatches (p : Platform) (href : String) : Bool := endsWithStr href (extensionMap p)

/-- `extensionMap` of the second revision of `index.js` (lines 194-200): the
same strings, but used as plain strings, not anchored regexes. -/
def extensionMap2 : Platform → String
  | .linux_x86_64 => ".tar.bz2"
  | .linux_i686 => ".tar.bz2"
  | .mac => ".dmg"
  | .win32 => ".exe"
  | .win64 => ".exe"

/-- Second revision: `elt.attribs.href.indexOf(fileExtension) !== -1`, i.e.
substring containment anywhere in the name. -/
def extMatches2 (p : Platform) (href : String) : Bool := containsStr href (extensionMap2 p)

/-- `isReleasePath` (index.js lines 131-133):
`[ 'nightly', 'aurora' ].indexOf(channel) === -1`. -/
def isReleasePath (c : Channel) : Bool :=
  !((["nightly", "aurora"] : List String).contains (channelName c))

/-! ### Filename Selector (src/index.js, both revisions of `parseFilename`) -/

/-- The two `Error`s `parseFilename` can throw, each carrying the `available`
array that the thrown message stringifies. -/
inductive PfError
  | multiple (available : List String)
  | noDownload (available : List String)
deriving DecidableEq

/-- The nightly/aurora secondary filter (index.js lines 86-90):
`href.match(program.platform) && href.match(program.locale) && !href.match('sdk')`.
The platform names and locales at hand contain no regex metacharacters, so the
matches are unanchored substring tests. -/
def nightlyMatch (platform locale href : String) : Bool :=
  containsStr href platform && containsStr href locale && !(containsStr href "sdk")

/-- `parseFilename` of the first revision of `index.js` (lines 54-91).
The listing body is represented by the list of anchor `href`s.
`Except.error` is a thrown `Error`; `Except.ok none` is the JavaScript
`undefined` produced by `.pop()` on an empty array. -/
def parseFilename (c : Channel) (p : Platform) (locale : String) (hrefs : List String) :
    Except PfError (Option String) :=
  let available := sortStr (hrefs.filter fun href => extMatches p href)
  if 1 < available.length ∧ isReleasePath c = true then
    .error (.multiple available)
  else if available.length = 0 then
    .error (.noDownload available)
  else if isReleasePath c then
    .ok available.getLast?
  else
    .ok (sortStr (available.filter fun href =>
      nightlyMatch (platformName p) locale href)).getLast?

/-- `parseFilename` of the second revision of `index.js` (lines 222-247): no
channel distinction (that revision has no nightly/aurora channels), extension
test by `indexOf`, and an unconditional ambiguity error. -/
def parseFilename2 (p : Platform) (hrefs : List String) : Except PfError (Option String) :=
  let available := sortStr (hrefs.filter fun href => extMatches2 p href)
  if 1 < available.length then
    .error (.multiple available)
  else if available.length = 0 then
    .error (.noDownload available)
  else
    .ok available.getLast?

/-! ### Catalog and install path (src/fetch.js) -/

/-- `channelMap(channel, file)` from `fetch.js` (lines 19-28): a lookup with a
`|| 'firefox-' + channel` fallback for a channel outside the enumeration.
(Only plain own-property keys are modelled; prototype-chain quirks of
JavaScript object lookup are out of scope.) -/
def fetchChannelMap (channel : String) (file : Bool) : String :=
  if channel = "esr" then (if file then "latest-esr" else "firefox-esr-latest")
  else if channel = "release" then (if file then "latest" else "firefox-latest")
  else if channel = "beta" then (if file then "latest-beta" else "firefox-beta-latest")
  else if channel = "aurora" then (if file then "latest-aurora" else "firefox-aurora-latest")
  else if channel = "nightly" then (if file then "latest-nightly" else "firefox-nightly-latest")
  else "firefox-" ++ channel

/-- `platformMap(platform)` from `fetch.js` (lines 30-39): a plain object
lookup, `undefined` (here `none`) for an unrecognized platform. -/
def fetchPlatformMap (platform : String) : Option String :=
  if platform = "linux-x86_64" then some "linux64"
  else if platform = "linux-i686" then some "linux"
  else if platform = "mac" then some "osx"
  else if platform = "win32" then some "win"
  else if platform = "win64" then some "win64"
  else none

/-- The supported channel enumeration, as strings. -/
def supportedChannels : List String := ["release", "beta", "esr", "aurora", "nightly"]

/-- The supported platform enumeration, as strings. -/
def supportedPlatforms : List String :=
  ["linux-x86_64", "linux-i686", "mac", "win32", "win64"]

/-- `path.join` of two slash-free-boundary segments (no normalization is
needed for the segments this program joins). -/
def pathJoin (a b : String) : String := a ++ "/" ++ b

/-- One resolve-fetch-install request, mirroring the fields of the parsed
`program` options that the install-path computation can see. -/
structure Request where
  channel : String
  platform : Platform
  locale : String
  installRoot : String

/-- `installDir(channel)` from `fetch.js` (lines 59-61):
`path.join(program.installDir, channelMap(channel, true), program.locale)`. -/
def installDir (installRoot channel locale : String) : String :=
  pathJoin (pathJoin installRoot (fetchChannelMap channel true)) locale

/-- The install target as a function of a whole request. -/
def installDirReq (r : Request) : String := installDir r.installRoot r.channel r.locale

/-- `targetDir` from the first revision of `index.js` (line 105):
`path.join(program.installDir, channelMap[program.channel], program.locale)`. -/
def targetDir (installRoot : String) (c : Channel) (locale : String) : String :=
  pathJoin (pathJoin installRoot (channelMap c)) locale

/-! ### Redirect resolution (src/fetch.js `start`, lines 100-124) -/

/-- The failures of the redirect resolution step. -/
inductive FetchError
  | non302 (status : Nat)
  | noLocation
deriving DecidableEq

/-- Part of `s` after the first occurrence of `sep`, if any:
`some (pre, suf)` with `s = pre ++ sep ++ suf` at the first occurrence. -/
def splitFirst (sep : List Char) : List Char → Option (List Char × List Char)
  | [] => if sep.isEmpty then some ([], []) else none
  | c :: rest =>
    if startsWith (c :: rest) sep then some ([], (c :: rest).drop sep.length)
    else match splitFirst sep rest with
      | some (pre, suf) => some (c :: pre, suf)
      | none => none

/-- `path.basename(url.parse(targetUrl).pathname)` for an absolute http(s)
URL: drop the scheme marker `://` and the host (up to the first `/`), drop a
query or fragment, and keep the last `/`-separated component. -/
def urlPathBasename (u : String) : String :=
  let afterScheme := match splitFirst "://".data u.data with
    | some (_, rest) => rest
    | none => u.data
  let pathAndAfter := afterScheme.dropWhile (fun ch => ch != '/')
  let pathOnly := pathAndAfter.takeWhile (fun ch => ch != '?' && ch != '#')
  ⟨(pathOnly.reverse.takeWhile (fun ch => ch != '/')).reverse⟩

/-- Did an `Except` computation succeed? -/
def exceptIsOk {ε α : Type} : Except ε α → Bool
  | .ok _ => true
  | .error _ => false

/-- The redirect handling of `start` (fetch.js lines 100-115): from the
resolver response's status code and optional `location` header, either the
resolved filename, or the error thrown before any artifact request is made.
JavaScript `!targetUrl` is also true for an empty header value. -/
def resolveRedirect (status : Nat) (location : Option String) : Except FetchError String :=
  if status ≠ 302 then .error (.non302 status)
  else match location with
    | none => .error .noLocation
    | some targetUrl =>
      if targetUrl = "" then .error .noLocation
      else .ok (urlPathBasename targetUrl)

/-! ### Installer effect traces -/

/-- One filesystem side effect, in the vocabulary of the calls the code
makes: `decompress` (extract an archive into a directory), `mkdirp.sync`,
`rimraf.sync`, `fs.renameSync`, `fs.chmodSync`, `fs.unlinkSync`. -/
inductive FsEffect
  | extract (src dst : String)
  | mkdirp (p : String)
  | rimraf (p : String)
  | rename (src dst : String)
  | chmod (p : String)
  | unlink (p : String)
deriving DecidableEq

/-- The effect sequence of `ondownload` in `fetch.js` (lines 73-96), for a
fetched temporary file `src` with resolved filename `filename`:
remove the install dir, recreate it, then either extract into it (linux) or
move the file into it under its filename (mac/windows). -/
def fetchOndownloadTrace (isLinux : Bool) (installdir src filename : String) : List FsEffect :=
  [.rimraf installdir, .mkdirp installdir] ++
    (if isLinux then [.extract src installdir]
     else [.rename src (pathJoin installdir filename)])

/-- The `fetch.js` install effect sequence as a function of the request. -/
def fetchUnitTrace (r : Request) (src filename : String) : List FsEffect :=
  fetchOndownloadTrace (isLinuxName r.platform) (installDirReq r) src filename

/-- The effect sequence of one linux unit in the first revision of `index.js`
(lines 93-129): `decompress` extracts the temporary file into a fresh
temporary directory, then `oncomplete` creates the parents, removes the
target, renames the temporary directory onto it, fixes modes, and deletes the
temporary file. -/
def indexLinuxTrace (installRoot : String) (c : Channel) (locale tmpFile tmpDir : String) :
    List FsEffect :=
  [.extract tmpFile tmpDir,
   .mkdirp installRoot,
   .mkdirp (pathJoin installRoot (channelMap c)),
   .rimraf (targetDir installRoot c locale),
   .rename tmpDir (targetDir installRoot c locale),
   .chmod installRoot,
   .chmod (targetDir installRoot c locale),
   .unlink tmpFile]

/-- The effect sequence of the non-linux branch of `ondownload` in the first
revision of `index.js` (lines 116-122): `mkdirp.sync(program.installDir)`
then `fs.renameSync(program.tmpFile, program.installDir)`. -/
def indexNonLinuxTrace (installRoot tmpFile : String) : List FsEffect :=
  [.mkdirp installRoot, .rename tmpFile installRoot]

/-- `d` is the directory `t` itself or a path inside it. -/
def withinDir (t d : String) : Bool := d == t || startsWith d.data (t ++ "/").data

/-- The effect recreates or writes into the directory `t`. -/
def touchesTarget (t : String) : FsEffect → Bool
  | .extract _ d => withinDir t d
  | .rename _ d => withinDir t d
  | .mkdirp d => withinDir t d
  | _ => false

/-- The effect is the recursive removal of `t`. -/
def isRemovalOf (t : String) : FsEffect → Bool
  | .rimraf d => d == t
  | _ => false

/-- No effect that recreates or populates `t` occurs before the removal of
`t`: scanning left to right, every effect seen before the first `rimraf t`
leaves `t` untouched. -/
def removalPrecedes (t : String) : List FsEffect → Bool
  | [] => true
  | e :: rest => isRemovalOf t e || (!touchesTarget t e && removalPrecedes t rest)

/-- The effect consumes the contents of file `f` (moves it or extracts it). -/
def usesFile (f : String) : FsEffect → Bool
  | .rename s _ => s == f
  | .extract s _ => s == f
  | _ => false

/-- The effect deletes the file `f`. -/
def isUnlinkOf (f : String) : FsEffect → Bool
  | .unlink p => p == f
  | _ => false

/-- The file `f` is never deleted before its contents have been moved or
extracted: scanning left to right, no `unlink f` occurs before the first
effect that consumes `f`. -/
def noUnlinkBeforeUse (f : String) : List FsEffect → Bool
  | [] => true
  | e :: rest => usesFile f e || (!isUnlinkOf f e && noUnlinkBeforeUse f rest)

/-! ### General lemmas about the string primitives -/

theorem startsWith_iff : ∀ s pat : List Char, startsWith s pat = true ↔ ∃ suf, s = pat ++ suf := by
  intro s pat
  induction pat generalizing s with
  | nil => simp [startsWith]
  | cons d pat ih =>
    cases s with
    | nil => simp [startsWith]
    | cons c s =>
      simp only [startsWith, Bool.and_eq_true, beq_iff_eq, ih]
      constructor
      · rintro ⟨rfl, suf, rfl⟩; exact ⟨suf, rfl⟩
      · rintro ⟨suf, h⟩
        rw [List.cons_append] at h
        cases h
        exact ⟨rfl, suf, rfl⟩

theorem startsWith_length {s pat : List Char} (h : startsWith s pat = true) :
    pat.length ≤ s.length := by
  obtain ⟨suf, rfl⟩ := (startsWith_iff s pat).1 h
  simp

theorem containsSeq_iff : ∀ s pat : List Char,
    containsSeq s pat = true ↔ ∃ pre suf, s = pre ++ pat ++ suf := by
  intro s pat
  induction s with
  | nil =>
    simp only [containsSeq, startsWith_iff]
    constructor
    · rintro ⟨suf, h⟩; exact ⟨[], suf, h⟩
    · rintro ⟨pre, suf, h⟩
      refine ⟨suf, ?_⟩
      rcases List.append_eq_nil.1 (List.append_eq_nil.1 h.symm).1 with ⟨h1, h2⟩
      simp [h1, h2] at h ⊢
      exact h
  | cons c rest ih =>
    simp only [containsSeq, Bool.or_eq_true, startsWith_iff, ih]
    constructor
    · rintro (⟨suf, h⟩ | ⟨pre, suf, h⟩)
      · exact ⟨[], suf, by simpa using h⟩
      · exact ⟨c :: pre, suf, by simp [h]⟩
    · rintro ⟨pre, suf, h⟩
      cases pre with
      | nil => exact Or.inl ⟨suf, by simpa using h⟩
      | cons p ps =>
        simp only [List.cons_append, List.cons.injEq] at h
        exact Or.inr ⟨ps, suf, h.2⟩

theorem containsSeq_trans {a b c : List Char} (hab : containsSeq a b = true)
    (hbc : containsSeq b c = true) : containsSeq a c = true := by
  obtain ⟨p1, s1, rfl⟩ := (containsSeq_iff a b).1 hab
  obtain ⟨p2, s2, rfl⟩ := (containsSeq_iff _ c).1 hbc
  exact (containsSeq_iff _ c).2 ⟨p1 ++ p2, s2 ++ s1, by simp⟩

theorem containsStr_trans {a b c : String} (hab : containsStr a b = true)
    (hbc : containsStr b c = true) : containsStr a c = true :=
  containsSeq_trans hab hbc

/-! ### General lemmas about the sort order -/

theorem listLt_irrefl : ∀ l : List Char, listLt l l = false := by
  intro l
  induction l with
  | nil => rfl
  | cons a as ih => simp [listLt, ih]

theorem listLt_trans : ∀ {a b c : List Char},
    listLt a b = true → listLt b c = true → listLt a c = true := by
  intro a
  induction a with
  | nil =>
    intro b c hab hbc
    cases b with
    | nil => simp [listLt] at hab
    | cons y ys =>
      cases c with
      | nil => simp [listLt] at hbc
      | cons z zs => simp [listLt]
  | cons x xs ih =>
    intro b c hab hbc
    cases b with
    | nil => simp [listLt] at hab
    | cons y ys =>
      cases c with
      | nil => simp [listLt] at hbc
      | cons z zs =>
        simp only [listLt, Bool.or_eq_true, Bool.and_eq_true, decide_eq_true_eq,
          beq_iff_eq] at hab hbc ⊢
        rcases hab with hxy | ⟨rfl, hxs⟩
        · rcases hbc with hyz | ⟨rfl, _⟩
          · exact Or.inl (lt_trans hxy hyz)
          · exact Or.inl hxy
        · rcases hbc with hyz | ⟨rfl, hys⟩
          · exact Or.inl hyz
          · exact Or.inr ⟨rfl, ih hxs hys⟩

theorem listLt_connex : ∀ {a b : List Char},
    listLt a b = false → listLt b a = false → a = b := by
  intro a
  induction a with
  | nil =>
    intro b hab _
    cases b with
    | nil => rfl
    | cons y ys => simp [listLt] at hab
  | cons x xs ih =>
    intro b hab hba
    cases b with
    | nil => simp [listLt] at hba
    | cons y ys =>
      simp only [listLt, Bool.or_eq_false_iff, Bool.and_eq_false_iff,
        decide_eq_false_iff_not, beq_eq_false_iff_ne, ne_eq] at hab hba
      have hxy : x = y := le_antisymm (not_lt.1 hba.1) (not_lt.1 hab.1)
      subst hxy
      rcases hab.2 with h | h
      · exact absurd rfl h
      · rcases hba.2 with h' | h'
        · exact absurd rfl h'
        · rw [ih h h']

theorem strLe_refl (a : String) : strLe a a = true := by
  simp [strLe, listLt_irrefl]

theorem strLe_total (a b : String) : strLe a b = true ∨ strLe b a = true := by
  by_cases h1 : listLt b.data a.data = true
  · right
    by_cases h2 : listLt a.data b.data = true
    · cases listLt_irrefl a.data ▸ listLt_trans h2 h1
    · simp [strLe, Bool.not_eq_true] at h2 ⊢
      exact h2
  · left
    simp [strLe, Bool.not_eq_true] at h1 ⊢
    exact h1

theorem strLe_trans {a b c : String} (hab : strLe a b = true) (hbc : strLe b c = true) :
    strLe a c = true := by
  simp only [strLe, Bool.not_eq_true', Bool.not_eq_true] at hab hbc ⊢
  by_cases hca : listLt c.data a.data = true
  · by_cases hab' : listLt a.data b.data = true
    · have := listLt_trans hca hab'
      rw [this] at hbc; cases hbc
    · have : a.data = b.data := listLt_connex (Bool.not_eq_true _ ▸ hab') hab
      rw [← this] at hbc
      rw [hca] at hbc; cases hbc
  · exact Bool.not_eq_true _ ▸ hca

theorem mem_insertStr {x a : String} : ∀ {l : List String},
    x ∈ insertStr a l ↔ x = a ∨ x ∈ l := by
  intro l
  induction l with
  | nil => simp [insertStr]
  | cons b bs ih =>
    simp only [insertStr]
    split
    · simp
    · simp only [List.mem_cons, ih]
      tauto

theorem mem_sortStr {x : String} : ∀ {l : List String}, x ∈ sortStr l ↔ x ∈ l := by
  intro l
  induction l with
  | nil => simp [sortStr]
  | cons a as ih => simp [sortStr, mem_insertStr, ih]

theorem length_insertStr (a : String) : ∀ l : List String,
    (insertStr a l).length = l.length + 1 := by
  intro l
  induction l with
  | nil => rfl
  | cons b bs ih =>
    simp only [insertStr]
    split
    · rfl
    · simp [ih]

theorem length_sortStr : ∀ l : List String, (sortStr l).length = l.length := by
  intro l
  induction l with
  | nil => rfl
  | cons a as ih => simp [sortStr, length_insertStr, ih]

theorem pairwise_insertStr {a : String} : ∀ {l : List String},
    l.Pairwise (fun x y => strLe x y = true) →
    (insertStr a l).Pairwise (fun x y => strLe x y = true) := by
  intro l
  induction l with
  | nil => intro _; simp [insertStr]
  | cons b bs ih =>
    intro h
    rcases List.pairwise_cons.1 h with ⟨hb, hbs⟩
    simp only [insertStr]
    split
    · rename_i hab
      refine List.pairwise_cons.2 ⟨?_, h⟩
      intro y hy
      rcases List.mem_cons.1 hy with rfl | hy
      · exact hab
      · exact strLe_trans hab (hb y hy)
    · rename_i hab
      have hba : strLe b a = true := by
        rcases strLe_total a b with h' | h'
        · exact absurd h' hab
        · exact h'
      refine List.pairwise_cons.2 ⟨?_, ih hbs⟩
      intro y hy
      rcases mem_insertStr.1 hy with rfl | hy
      · exact hba
      · exact hb y hy

theorem pairwise_sortStr : ∀ l : List String,
    (sortStr l).Pairwise (fun x y => strLe x y = true) := by
  intro l
  induction l with
  | nil => simp [sortStr]
  | cons a as ih => exact pairwise_insertStr ih

theorem sortStr_eq_nil_iff {l : List String} : sortStr l = [] ↔ l = [] := by
  constructor
  · intro h
    have := length_sortStr l
    rw [h] at this
    exact List.length_eq_zero.1 this.symm
  · rintro rfl; rfl

/-- In a `strLe`-sorted list, the last element bounds every member from above. -/
theorem le_getLast_of_pairwise : ∀ {l : List String} {m : String},
    l.Pairwise (fun x y => strLe x y = true) → l.getLast? = some m →
    ∀ x ∈ l, strLe x m = true := by
  intro l
  induction l with
  | nil => intro m _ h; cases h
  | cons a as ih =>
    intro m hp hlast x hx
    cases as with
    | nil =>
      simp only [List.getLast?_singleton, Option.some.injEq] at hlast
      rcases List.mem_singleton.1 hx with rfl
      rw [← hlast]
      exact strLe_refl x
    | cons b bs =>
      rw [List.getLast?_cons_cons] at hlast
      rcases List.pairwise_cons.1 hp with ⟨ha, hp'⟩
      rcases List.mem_cons.1 hx with rfl | hx
      · exact ha m (List.mem_of_getLast?_eq_some hlast)
      · exact ih hp' hlast x hx

/-! ### General lemmas about paths and traces -/

theorem pathJoin_data (a b : String) : (pathJoin a b).data = a.data ++ '/' :: b.data := by
  show (a ++ "/" ++ b).data = _
  rw [String.data_append, String.data_append, List.append_assoc]
  rfl

theorem pathJoin_data_length (a b : String) :
    (pathJoin a b).data.length = a.data.length + 1 + b.data.length := by
  rw [pathJoin_data]
  simp only [List.length_append, List.length_cons]
  omega

/-- Distinct middle path segments give distinct joined paths. -/
theorem installPath_ne_of_token_ne {tok1 tok2 : String} (h : tok1 ≠ tok2)
    (root locale : String) :
    pathJoin (pathJoin root tok1) locale ≠ pathJoin (pathJoin root tok2) locale := by
  intro he
  apply h
  have hd := congrArg String.data he
  rw [pathJoin_data, pathJoin_data, pathJoin_data, pathJoin_data,
    List.append_assoc, List.append_assoc] at hd
  have h1 := List.append_inj_right hd rfl
  rw [List.cons_append, List.cons_append, List.cons.injEq] at h1
  have h2 := (List.append_inj' h1.2 rfl).1
  obtain ⟨l1⟩ := tok1
  obtain ⟨l2⟩ := tok2
  exact congrArg String.mk (by simpa using h2)

theorem withinDir_eq_false_of_shorter {t d : String}
    (h : d.data.length < t.data.length) : withinDir t d = false := by
  simp only [withinDir, Bool.or_eq_false_iff]
  constructor
  · rw [beq_eq_false_iff_ne]
    intro he
    rw [he] at h
    omega
  · cases hs : startsWith d.data (t ++ "/").data
    · rfl
    · have hl := startsWith_length hs
      rw [String.data_append] at hl
      simp only [List.length_append] at hl
      have : ("/" : String).data.length = 1 := rfl
      omega

/-! ### Claim C1 -/

/-- C1, counterexample: the claim asserts that `parseFilename` (both
revisions) only ever returns filenames whose SUFFIX matches the platform's
extension.  The second revision filters by `indexOf`, so on platform `mac`
it returns `firefox.dmg.exe`, whose suffix is `.exe` — the extension of a
different platform (`win32`) — and not `.dmg`. -/
theorem c1_counterexample :
    parseFilename2 Platform.mac ["firefox.dmg.exe"] = Except.ok (some "firefox.dmg.exe") ∧
    extMatches Platform.mac "firefox.dmg.exe" = false ∧
    extMatches Platform.win32 "firefox.dmg.exe" = true := by
  refine ⟨rfl, by rfl, by rfl⟩

/-- C1, amended: the FIRST revision of `parseFilename` returns only filenames
whose suffix matches the platform's expected extension (the anchored-regex
map); the SECOND revision guarantees only that the extension string occurs
somewhere inside the returned filename (substring containment), not that it
is a suffix. -/
theorem c1_extension_discipline :
    (∀ (c : Channel) (p : Platform) (locale : String) (hrefs : List String) (f : String),
      parseFilename c p locale hrefs = Except.ok (some f) → extMatches p f = true) ∧
    (∀ (p : Platform) (hrefs : List String) (f : String),
      parseFilename2 p hrefs = Except.ok (some f) → extMatches2 p f = true) := by
  constructor
  · intro c p locale hrefs f h
    simp only [parseFilename] at h
    split at h
    · simp at h
    · split at h
      · simp at h
      · split at h
        · rw [Except.ok.injEq] at h
          have hm := List.mem_of_getLast?_eq_some h
          rw [mem_sortStr] at hm
          exact (List.mem_filter.1 hm).2
        · rw [Except.ok.injEq] at h
          have hm := List.mem_of_getLast?_eq_some h
          rw [mem_sortStr] at hm
          have hm2 := (List.mem_filter.1 hm).1
          rw [mem_sortStr] at hm2
          exact (List.mem_filter.1 hm2).2
  · intro p hrefs f h
    simp only [parseFilename2] at h
    split at h
    · simp at h
    · split at h
      · simp at h
      · rw [Except.ok.injEq] at h
        have hm := List.mem_of_getLast?_eq_some h
        rw [mem_sortStr] at hm
        exact (List.mem_filter.1 hm).2

/-- C1, witness for the amended theorem at concrete inputs. -/
theorem c1_witness :
    extMatches Platform.linux_x86_64 "firefox-120.0.tar.bz2" = true ∧
    extMatches2 Platform.mac "firefox.dmg.exe" = true :=
  ⟨c1_extension_discipline.1 Channel.release Platform.linux_x86_64 "en-US"
      ["firefox-120.0.tar.bz2"] "firefox-120.0.tar.bz2" (by rfl),
   c1_extension_discipline.2 Platform.mac ["firefox.dmg.exe"] "firefox.dmg.exe" (by rfl)⟩

/-! ### Claim C3 -/

/-- C3, counterexample: the claim asserts `parseFilename` always returns a
filename or throws, and that zero matches at the nightly/aurora
platform-and-locale filter raises a "no download available" error.  In fact,
when the extension filter is non-empty but the secondary filter matches
nothing (here: locale `de` against an `en-US`-only listing), the function
returns JavaScript `undefined` (`.pop()` of an empty array) — neither a
filename nor an error. -/
theorem c3_counterexample :
    parseFilename Channel.nightly Platform.linux_x86_64 "de"
      ["firefox-50.0a1.en-US.linux-x86_64.tar.bz2"] = Except.ok none := by
  rfl

/-- C3, amended: the "no download available" error is raised exactly when the
extension filter leaves zero entries; for nightly/aurora, when the extension
filter is non-empty but the platform-and-locale filter leaves zero entries,
`parseFilename` returns `undefined` (modelled `Except.ok none`) without
raising; for standard channels the result is never `undefined`. -/
theorem c3_selector_totality :
    (∀ (c : Channel) (p : Platform) (locale : String) (hrefs : List String),
      (hrefs.filter fun href => extMatches p href) = [] →
      parseFilename c p locale hrefs = Except.error (PfError.noDownload [])) ∧
    (∀ (c : Channel) (p : Platform) (locale : String) (hrefs : List String),
      isReleasePath c = false →
      (hrefs.filter fun href => extMatches p href) ≠ [] →
      ((hrefs.filter fun href => extMatches p href).filter
        fun href => nightlyMatch (platformName p) locale href) = [] →
      parseFilename c p locale hrefs = Except.ok none) ∧
    (∀ (c : Channel) (p : Platform) (locale : String) (hrefs : List String),
      isReleasePath c = true →
      parseFilename c p locale hrefs ≠ Except.ok none) := by
  refine ⟨?_, ?_, ?_⟩
  · intro c p locale hrefs hf
    simp [parseFilename, hf, sortStr]
  · intro c p locale hrefs hrel hne h2
    have h1 : ¬(1 < (sortStr (hrefs.filter fun href => extMatches p href)).length ∧
        isReleasePath c = true) := by
      simp [hrel]
    have h0 : ¬((sortStr (hrefs.filter fun href => extMatches p href)).length = 0) := by
      rw [length_sortStr]
      intro h
      exact hne (List.length_eq_zero.1 h)
    have h3 : ¬(isReleasePath c = true) := by simp [hrel]
    simp only [parseFilename]
    rw [if_neg h1, if_neg h0, if_neg h3]
    have hfe : ((sortStr (hrefs.filter fun href => extMatches p href)).filter
        fun href => nightlyMatch (platformName p) locale href) = [] := by
      rw [List.filter_eq_nil_iff] at h2 ⊢
      intro a ha
      exact h2 a (mem_sortStr.1 ha)
    rw [hfe]
    rfl
  · intro c p locale hrefs hrel h
    simp only [parseFilename] at h
    split at h
    · simp at h
    · split at h
      · simp at h
      · rw [Except.ok.injEq, List.getLast?_eq_none_iff] at h
        rename_i hlen
        rw [h] at hlen
        exact hlen rfl

/-- C3, witness for the amended theorem at concrete inputs. -/
theorem c3_witness :
    parseFilename Channel.release Platform.mac "en-US" ["readme.txt"] =
      Except.error (PfError.noDownload []) ∧
    parseFilename Channel.nightly Platform.linux_x86_64 "de"
      ["firefox-50.0a1.en-US.linux-x86_64.tar.bz2"] = Except.ok none ∧
    parseFilename Channel.beta Platform.win32 "en-US" ["Firefox Setup 49.0b1.exe"] ≠
      Except.ok none :=
  ⟨c3_selector_totality.1 Channel.release Platform.mac "en-US" ["readme.txt"] (by rfl),
   c3_selector_totality.2.1 Channel.nightly Platform.linux_x86_64 "de"
     ["firefox-50.0a1.en-US.linux-x86_64.tar.bz2"] (by rfl) (by decide) (by rfl),
   c3_selector_totality.2.2 Channel.beta Platform.win32 "en-US"
     ["Firefox Setup 49.0b1.exe"] (by rfl)⟩

/-! ### Claim C7 -/

/-- C7: for standard (non-nightly/aurora) channels, more than one
extension-matching entry is a fatal "Multiple possible downloads" error, and
exactly one entry is returned as the selected filename.  Both revisions of
`parseFilename` behave this way (the second revision has only standard
channels). -/
theorem c7_standard_channel_policy :
    (∀ (c : Channel) (p : Platform) (locale : String) (hrefs : List String),
      isReleasePath c = true →
      1 < (hrefs.filter fun href => extMatches p href).length →
      parseFilename c p locale hrefs =
        Except.error (PfError.multiple (sortStr (hrefs.filter fun href => extMatches p href)))) ∧
    (∀ (c : Channel) (p : Platform) (locale : String) (hrefs : List String) (f : String),
      isReleasePath c = true →
      (hrefs.filter fun href => extMatches p href) = [f] →
      parseFilename c p locale hrefs = Except.ok (some f)) ∧
    (∀ (p : Platform) (hrefs : List String),
      1 < (hrefs.filter fun href => extMatches2 p href).length →
      parseFilename2 p hrefs =
        Except.error (PfError.multiple (sortStr (hrefs.filter fun href => extMatches2 p href)))) ∧
    (∀ (p : Platform) (hrefs : List String) (f : String),
      (hrefs.filter fun href => extMatches2 p href) = [f] →
      parseFilename2 p hrefs = Except.ok (some f)) := by
  refine ⟨?_, ?_, ?_, ?_⟩
  · intro c p locale hrefs hrel hlen
    simp only [parseFilename]
    rw [if_pos]
    exact ⟨by rw [length_sortStr]; exact hlen, hrel⟩
  · intro c p locale hrefs f hrel hfil
    simp [parseFilename, hfil, sortStr, insertStr, hrel]
  · intro p hrefs hlen
    simp only [parseFilename2]
    rw [if_pos]
    rw [length_sortStr]
    exact hlen
  · intro p hrefs f hfil
    simp [parseFilename2, hfil, sortStr, insertStr]

/-- C7, witness at concrete inputs: a two-entry ambiguous listing errors, a
one-entry listing selects that entry, in both revisions. -/
theorem c7_witness :
    parseFilename Channel.release Platform.linux_x86_64 "en-US"
      ["firefox-120.0.tar.bz2", "firefox-121.0.tar.bz2"] =
      Except.error (PfError.multiple
        (sortStr ["firefox-120.0.tar.bz2", "firefox-121.0.tar.bz2"])) ∧
    parseFilename Channel.release Platform.linux_x86_64 "en-US"
      ["firefox-120.0.tar.bz2"] = Except.ok (some "firefox-120.0.tar.bz2") ∧
    parseFilename2 Platform.win32 ["a.exe", "b.exe"] =
      Except.error (PfError.multiple (sortStr ["a.exe", "b.exe"])) ∧
    parseFilename2 Platform.win32 ["a.exe"] = Except.ok (some "a.exe") := by
  refine ⟨?_, ?_, ?_, ?_⟩
  · have h := c7_standard_channel_policy.1 Channel.release Platform.linux_x86_64 "en-US"
      ["firefox-120.0.tar.bz2", "firefox-121.0.tar.bz2"] (by rfl) (by decide)
    simpa using h
  · have h := c7_standard_channel_policy.2.1 Channel.release Platform.linux_x86_64 "en-US"
      ["firefox-120.0.tar.bz2"] "firefox-120.0.tar.bz2" (by rfl) (by decide)
    simpa using h
  · have h := c7_standard_channel_policy.2.2.1 Platform.win32 ["a.exe", "b.exe"] (by decide)
    simpa using h
  · have h := c7_standard_channel_policy.2.2.2 Platform.win32 ["a.exe"] "a.exe" (by decide)
    simpa using h

/-! ### Claim C9 -/

/-- C9, counterexample: the claim asserts the catalog lookups fail on a value
outside the supported enumeration.  In fact `channelMap` of `fetch.js`
returns the fabricated token `'firefox-' + channel` for an unknown channel,
and `platformMap` returns `undefined` — neither surfaces an error. -/
theorem c9_counterexample :
    fetchChannelMap "bogus" true = "firefox-bogus" ∧
    fetchChannelMap "bogus" false = "firefox-bogus" ∧
    fetchPlatformMap "bogus" = none := by
  refine ⟨rfl, rfl, rfl⟩

/-- C9, amended: the lookups are pure functions; every supported channel gets
a mapped token (not the fallback) and every supported platform gets a token,
but an unrecognized channel yields the fabricated token
`'firefox-' ++ channel` and an unrecognized platform yields `undefined`
(`none`) — no error is raised in either case. -/
theorem c9_catalog_lookup :
    (∀ c ∈ supportedChannels, ∀ b : Bool, fetchChannelMap c b ≠ "firefox-" ++ c) ∧
    (∀ p ∈ supportedPlatforms, (fetchPlatformMap p).isSome = true) ∧
    (∀ c : String, c ∉ supportedChannels → ∀ b : Bool,
      fetchChannelMap c b = "firefox-" ++ c) ∧
    (∀ p : String, p ∉ supportedPlatforms → fetchPlatformMap p = none) := by
  refine ⟨?_, ?_, ?_, ?_⟩
  · intro c hc b
    fin_cases hc <;> cases b <;> decide
  · intro p hp
    fin_cases hp <;> decide
  · intro c hc b
    simp only [supportedChannels, List.mem_cons, List.not_mem_nil, or_false, not_or] at hc
    obtain ⟨h1, h2, h3, h4, h5⟩ := hc
    simp [fetchChannelMap, h1, h2, h3, h4, h5]
  · intro p hp
    simp only [supportedPlatforms, List.mem_cons, List.not_mem_nil, or_false, not_or] at hp
    obtain ⟨h1, h2, h3, h4, h5⟩ := hp
    simp [fetchPlatformMap, h1, h2, h3, h4, h5]

/-- C9, witness for the amended theorem at concrete inputs. -/
theorem c9_witness :
    fetchChannelMap "release" true ≠ "firefox-release" ∧
    (fetchPlatformMap "mac").isSome = true ∧
    fetchChannelMap "bogus" true = "firefox-bogus" ∧
    fetchPlatformMap "bogus" = none :=
  ⟨c9_catalog_lookup.1 "release" (by decide) true,
   c9_catalog_lookup.2.1 "mac" (by decide),
   c9_catalog_lookup.2.2.1 "bogus" (by decide) true,
   c9_catalog_lookup.2.2.2 "bogus" (by decide)⟩

/-! ### Claim C10 -/

/-- C10: in the nightly/aurora selection filter, the platform token, the
locale token and the `sdk` exclusion are unanchored substring matches, so
whenever one locale is contained in another (e.g. `en` inside `en-US`), any
filename accepted for the longer locale is also accepted for the shorter
one. -/
theorem c10_unanchored_locale :
    ∀ (platformTok l1 l2 href : String),
      containsStr l2 l1 = true →
      nightlyMatch platformTok l2 href = true →
      nightlyMatch platformTok l1 href = true := by
  intro pt l1 l2 href h12 h2
  simp only [nightlyMatch, Bool.and_eq_true] at h2 ⊢
  exact ⟨⟨h2.1.1, containsStr_trans h2.1.2 h12⟩, h2.2⟩

/-- C10, witness: a request for locale `en` accepts the `en-US` nightly
filename. -/
theorem c10_witness :
    nightlyMatch "linux-x86_64" "en" "firefox-50.0a1.en-US.linux-x86_64.tar.bz2" = true :=
  c10_unanchored_locale "linux-x86_64" "en" "en-US"
    "firefox-50.0a1.en-US.linux-x86_64.tar.bz2" (by rfl) (by rfl)

/-! ### Claim C4 -/

/-- C4: with the expected 302 status and a `location` header, the resolved
filename is the basename of the location URL's path (concretely,
`https://host/path/firefox-120.0.tar.bz2` resolves to
`firefox-120.0.tar.bz2`); any other status, or a missing `location` header,
is an error and the computation never reaches the download. -/
theorem c4_redirect_resolution :
    resolveRedirect 302 (some "https://host/path/firefox-120.0.tar.bz2") =
      Except.ok "firefox-120.0.tar.bz2" ∧
    (∀ t : String, t ≠ "" →
      resolveRedirect 302 (some t) = Except.ok (urlPathBasename t)) ∧
    (∀ (status : Nat) (location : Option String), status ≠ 302 →
      resolveRedirect status location = Except.error (FetchError.non302 status)) ∧
    (∀ status : Nat, exceptIsOk (resolveRedirect status none) = false) := by
  refine ⟨rfl, ?_, ?_, ?_⟩
  · intro t ht
    simp [resolveRedirect, ht]
  · intro status location h
    simp [resolveRedirect, h]
  · intro status
    by_cases h : status = 302 <;> simp [resolveRedirect, h, exceptIsOk]

/-- C4, witness for the hypothesis-bearing conjuncts at concrete inputs. -/
theorem c4_witness :
    resolveRedirect 302 (some "https://host/path/firefox-120.0.tar.bz2") =
      Except.ok (urlPathBasename "https://host/path/firefox-120.0.tar.bz2") ∧
    resolveRedirect 200 (some "https://host/path/firefox-120.0.tar.bz2") =
      Except.error (FetchError.non302 200) :=
  ⟨c4_redirect_resolution.2.1 "https://host/path/firefox-120.0.tar.bz2" (by decide),
   c4_redirect_resolution.2.2.1 200 (some "https://host/path/firefox-120.0.tar.bz2")
     (by decide)⟩

/-! ### Claim C2 -/

/-- C2: for nightly/aurora channels, after the extension filter the selector
keeps only hrefs containing the platform token and the locale token and not
containing `sdk`, and returns the lexicographically last of the remainder;
on the three-file example listing with platform `linux-x86_64` and locale
`en-US` it returns exactly `firefox-50.0a1.en-US.linux-x86_64.tar.bz2`. -/
theorem c2_nightly_selection :
    (∀ (c : Channel) (p : Platform) (locale : String) (hrefs : List String),
      isReleasePath c = false →
      (hrefs.filter fun href => extMatches p href) ≠ [] →
      ((hrefs.filter fun href => extMatches p href).filter
        fun href => nightlyMatch (platformName p) locale href) ≠ [] →
      ∃ m, parseFilename c p locale hrefs = Except.ok (some m) ∧
        m ∈ hrefs ∧ extMatches p m = true ∧
        nightlyMatch (platformName p) locale m = true ∧
        ∀ x ∈ hrefs, extMatches p x = true →
          nightlyMatch (platformName p) locale x = true → strLe x m = true) ∧
    parseFilename Channel.nightly Platform.linux_x86_64 "en-US"
      ["firefox-50.0a1.en-US.linux-x86_64.tar.bz2",
       "firefox-49.0a1.en-US.linux-x86_64.tar.bz2",
       "firefox-50.0a1.en-US.linux-x86_64.sdk.tar.bz2"] =
      Except.ok (some "firefox-50.0a1.en-US.linux-x86_64.tar.bz2") := by
  constructor
  · intro c p locale hrefs hrel hne hne2
    have h1 : ¬(1 < (sortStr (hrefs.filter fun href => extMatches p href)).length ∧
        isReleasePath c = true) := by simp [hrel]
    have h0 : ¬((sortStr (hrefs.filter fun href => extMatches p href)).length = 0) := by
      rw [length_sortStr]
      intro h
      exact hne (List.length_eq_zero.1 h)
    have h3 : ¬(isReleasePath c = true) := by simp [hrel]
    have hpf : parseFilename c p locale hrefs =
        Except.ok (sortStr ((sortStr (hrefs.filter fun href => extMatches p href)).filter
          fun href => nightlyMatch (platformName p) locale href)).getLast? := by
      simp only [parseFilename]
      rw [if_neg h1, if_neg h0, if_neg h3]
    have hBne : ((sortStr (hrefs.filter fun href => extMatches p href)).filter
        fun href => nightlyMatch (platformName p) locale href) ≠ [] := by
      intro hB0
      apply hne2
      rw [List.filter_eq_nil_iff] at hB0 ⊢
      intro a ha
      exact hB0 a (mem_sortStr.2 ha)
    have hsBne : sortStr ((sortStr (hrefs.filter fun href => extMatches p href)).filter
        fun href => nightlyMatch (platformName p) locale href) ≠ [] :=
      fun h0x => hBne (sortStr_eq_nil_iff.1 h0x)
    obtain ⟨m, hm⟩ := Option.ne_none_iff_exists'.1
      (fun hnone => hsBne (List.getLast?_eq_none_iff.1 hnone))
    have hmB := mem_sortStr.1 (List.mem_of_getLast?_eq_some hm)
    have hmA := mem_sortStr.1 (List.mem_filter.1 hmB).1
    refine ⟨m, by rw [hpf, hm], (List.mem_filter.1 hmA).1, (List.mem_filter.1 hmA).2,
      (List.mem_filter.1 hmB).2, ?_⟩
    intro x hx hxe hxn
    have hxB : x ∈ (sortStr (hrefs.filter fun href => extMatches p href)).filter
        fun href => nightlyMatch (platformName p) locale href :=
      List.mem_filter.2 ⟨mem_sortStr.2 (List.mem_filter.2 ⟨hx, hxe⟩), hxn⟩
    exact le_getLast_of_pairwise (pairwise_sortStr _) hm x (mem_sortStr.2 hxB)
  · rfl

/-- C2, witness for the general part at the example listing of the claim. -/
theorem c2_witness :
    ∃ m, parseFilename Channel.nightly Platform.linux_x86_64 "en-US"
        ["firefox-50.0a1.en-US.linux-x86_64.tar.bz2",
         "firefox-49.0a1.en-US.linux-x86_64.tar.bz2",
         "firefox-50.0a1.en-US.linux-x86_64.sdk.tar.bz2"] = Except.ok (some m) ∧
      m ∈ ["firefox-50.0a1.en-US.linux-x86_64.tar.bz2",
           "firefox-49.0a1.en-US.linux-x86_64.tar.bz2",
           "firefox-50.0a1.en-US.linux-x86_64.sdk.tar.bz2"] ∧
      extMatches Platform.linux_x86_64 m = true ∧
      nightlyMatch (platformName Platform.linux_x86_64) "en-US" m = true ∧
      ∀ x ∈ ["firefox-50.0a1.en-US.linux-x86_64.tar.bz2",
             "firefox-49.0a1.en-US.linux-x86_64.tar.bz2",
             "firefox-50.0a1.en-US.linux-x86_64.sdk.tar.bz2"],
        extMatches Platform.linux_x86_64 x = true →
        nightlyMatch (platformName Platform.linux_x86_64) "en-US" x = true →
        strLe x m = true :=
  c2_nightly_selection.1 Channel.nightly Platform.linux_x86_64 "en-US"
    ["firefox-50.0a1.en-US.linux-x86_64.tar.bz2",
     "firefox-49.0a1.en-US.linux-x86_64.tar.bz2",
     "firefox-50.0a1.en-US.linux-x86_64.sdk.tar.bz2"]
    (by rfl) (by decide) (by decide)

/-! ### Claim C5 -/

/-- C5: the install target is `installRoot/channelLocalName/locale`, a
function of channel and locale only — the platform field never enters the
computation — and distinct channels always give distinct install paths (in
`fetch.js` for the supported channel enumeration, and in `index.js` for the
whole `Channel` type). -/
theorem c5_install_target :
    (∀ r r' : Request, r.channel = r'.channel → r.locale = r'.locale →
      r.installRoot = r'.installRoot → installDirReq r = installDirReq r') ∧
    (∀ c1 ∈ supportedChannels, ∀ c2 ∈ supportedChannels, c1 ≠ c2 →
      ∀ root locale : String, installDir root c1 locale ≠ installDir root c2 locale) ∧
    (∀ c1 c2 : Channel, c1 ≠ c2 →
      ∀ root locale : String, targetDir root c1 locale ≠ targetDir root c2 locale) := by
  refine ⟨?_, ?_, ?_⟩
  · intro r r' h1 h2 h3
    simp [installDirReq, installDir, h1, h2, h3]
  · intro c1 h1 c2 h2 hne root locale
    simp only [installDir]
    apply installPath_ne_of_token_ne
    simp only [supportedChannels] at h1 h2
    fin_cases h1 <;> fin_cases h2 <;> first | (exact absurd rfl hne) | decide
  · intro c1 c2 hne root locale
    simp only [targetDir]
    apply installPath_ne_of_token_ne
    cases c1 <;> cases c2 <;> first | (exact absurd rfl hne) | decide

/-- C5, witness at concrete requests: platform change leaves the target
unchanged, distinct channels give distinct targets. -/
theorem c5_witness :
    installDirReq ⟨"release", Platform.mac, "en-US", "/root/fx"⟩ =
      installDirReq ⟨"release", Platform.linux_x86_64, "en-US", "/root/fx"⟩ ∧
    installDir "/root/fx" "release" "en-US" ≠ installDir "/root/fx" "beta" "en-US" ∧
    targetDir "/root/fx" Channel.release "en-US" ≠ targetDir "/root/fx" Channel.beta "en-US" :=
  ⟨c5_install_target.1 ⟨"release", Platform.mac, "en-US", "/root/fx"⟩
      ⟨"release", Platform.linux_x86_64, "en-US", "/root/fx"⟩ rfl rfl rfl,
   c5_install_target.2.1 "release" (by decide) "beta" (by decide) (by decide) "/root/fx" "en-US",
   c5_install_target.2.2 Channel.release Channel.beta (by decide) "/root/fx" "en-US"⟩

/-! ### Claim C6 -/

/-- C6: in every unit of work, the removal of the install target strictly
precedes every effect that recreates or populates it, and the temporary
download file is never deleted before its contents have been moved or
extracted.  This holds for the `fetch.js` installer (both branches), the
`index.js` linux unit (given that the fresh temporary directory is not
inside the install target), and the `index.js` non-linux branch. -/
theorem c6_removal_and_cleanup_order :
    (∀ (isLinux : Bool) (installdir src filename : String),
      removalPrecedes installdir (fetchOndownloadTrace isLinux installdir src filename) = true ∧
      noUnlinkBeforeUse src (fetchOndownloadTrace isLinux installdir src filename) = true) ∧
    (∀ (root : String) (c : Channel) (locale tmpFile tmpDir : String),
      withinDir (targetDir root c locale) tmpDir = false →
      removalPrecedes (targetDir root c locale)
        (indexLinuxTrace root c locale tmpFile tmpDir) = true ∧
      noUnlinkBeforeUse tmpFile (indexLinuxTrace root c locale tmpFile tmpDir) = true) ∧
    (∀ (root : String) (c : Channel) (locale tmpFile : String),
      removalPrecedes (targetDir root c locale) (indexNonLinuxTrace root tmpFile) = true ∧
      noUnlinkBeforeUse tmpFile (indexNonLinuxTrace root tmpFile) = true) := by
  have hroot : ∀ (root : String) (c : Channel) (locale : String),
      withinDir (targetDir root c locale) root = false := by
    intro root c locale
    apply withinDir_eq_false_of_shorter
    simp only [targetDir, pathJoin_data_length]
    omega
  have hmid : ∀ (root : String) (c : Channel) (locale : String),
      withinDir (targetDir root c locale) (pathJoin root (channelMap c)) = false := by
    intro root c locale
    apply withinDir_eq_false_of_shorter
    simp only [targetDir, pathJoin_data_length]
    omega
  refine ⟨?_, ?_, ?_⟩
  · intro isLinux installdir src filename
    constructor
    · cases isLinux <;>
        simp [fetchOndownloadTrace, removalPrecedes, isRemovalOf]
    · cases isLinux <;>
        simp [fetchOndownloadTrace, noUnlinkBeforeUse, usesFile, isUnlinkOf]
  · intro root c locale tmpFile tmpDir htmp
    constructor
    · simp [indexLinuxTrace, removalPrecedes, touchesTarget, isRemovalOf, htmp,
        hroot root c locale, hmid root c locale]
    · simp [indexLinuxTrace, noUnlinkBeforeUse, usesFile]
  · intro root c locale tmpFile
    constructor
    · simp [indexNonLinuxTrace, removalPrecedes, touchesTarget, isRemovalOf,
        hroot root c locale]
    · simp [indexNonLinuxTrace, noUnlinkBeforeUse, usesFile, isUnlinkOf]

/-- C6, witness for the hypothesis-bearing part at a concrete linux unit. -/
theorem c6_witness :
    removalPrecedes (targetDir "/root/fx" Channel.nightly "en-US")
      (indexLinuxTrace "/root/fx" Channel.nightly "en-US" "/tmp/fxdownload-1" "/tmp/d1") =
      true ∧
    noUnlinkBeforeUse "/tmp/fxdownload-1"
      (indexLinuxTrace "/root/fx" Channel.nightly "en-US" "/tmp/fxdownload-1" "/tmp/d1") =
      true :=
  c6_removal_and_cleanup_order.2.1 "/root/fx" Channel.nightly "en-US"
    "/tmp/fxdownload-1" "/tmp/d1" (by decide)

/-! ### Claim C8 -/

/-- C8, counterexample: the claim asserts the installer moves the fetched
file into `installRoot/channelLocalName/locale` under its resolved filename.
The non-linux branch of the first revision of `index.js` instead renames the
temporary file onto the install ROOT path itself — not into the per-channel,
per-locale target, and not under the resolved filename. -/
theorem c8_counterexample :
    indexNonLinuxTrace "/root/fx" "/tmp/fxdownload-2" =
      [FsEffect.mkdirp "/root/fx", FsEffect.rename "/tmp/fxdownload-2" "/root/fx"] ∧
    ("/root/fx" : String) ≠
      pathJoin (targetDir "/root/fx" Channel.release "en-US") "Firefox 50.0.dmg" := by
  exact ⟨rfl, by decide⟩

/-- C8, amended: the `fetch.js` installer does move the fetched file into
`installRoot/channelLocalName/locale` under its resolved filename and
performs no extraction for mac/win32/win64; the `index.js` non-linux branch
performs no extraction either, but renames the file onto the install root
path itself. -/
theorem c8_opaque_binary_install :
    (∀ (r : Request) (src filename : String),
      (r.platform = Platform.mac ∨ r.platform = Platform.win32 ∨ r.platform = Platform.win64) →
      FsEffect.rename src (pathJoin (installDirReq r) filename) ∈ fetchUnitTrace r src filename ∧
      (∀ s d : String, FsEffect.extract s d ∉ fetchUnitTrace r src filename)) ∧
    (∀ root tmpFile : String,
      FsEffect.rename tmpFile root ∈ indexNonLinuxTrace root tmpFile ∧
      (∀ s d : String, FsEffect.extract s d ∉ indexNonLinuxTrace root tmpFile)) := by
  constructor
  · intro r src filename hp
    have hlin : isLinuxName r.platform = false := by
      rcases hp with h | h | h <;> rw [h] <;> rfl
    constructor
    · simp [fetchUnitTrace, fetchOndownloadTrace, hlin]
    · intro s d
      simp [fetchUnitTrace, fetchOndownloadTrace, hlin]
  · intro root tmpFile
    constructor
    · simp [indexNonLinuxTrace]
    · intro s d
      simp [indexNonLinuxTrace]

/-- C8, witness for the amended theorem at a concrete mac request. -/
theorem c8_witness :
    FsEffect.rename "/tmp/src"
        (pathJoin (installDirReq ⟨"release", Platform.mac, "en-US", "/root/fx"⟩)
          "Firefox 50.0.dmg") ∈
      fetchUnitTrace ⟨"release", Platform.mac, "en-US", "/root/fx"⟩ "/tmp/src"
        "Firefox 50.0.dmg" :=
  (c8_opaque_binary_install.1 ⟨"release", Platform.mac, "en-US", "/root/fx"⟩ "/tmp/src"
    "Firefox 50.0.dmg" (Or.inl rfl)).1

end Fxdownload
